import Mathlib

/-!
Shallow embedding of the batch standardization pipeline of
`src/backend.py` (functions `process_pms_batch_chunk` and
`run_pms_conversion_engine`, plus the constants of PART 2), together
with theorems settling the specification claims about it.

Modelling conventions:
* a Python dict row becomes `ItemRecord`, an ordered association list of
  field name to `Val` (string, number, or null); dict update preserves
  the position of an existing key and appends a fresh key at the end,
  exactly as Python dicts do;
* the external HTTP call of each retry attempt is replaced by an
  explicit `OracleResponse` value (non-200 status, transport exception,
  unparseable body, or a parsed JSON array of records); a run of
  `process_pms_batch_chunk` consumes one response per attempt;
* the thread pool of `run_pms_conversion_engine` is replaced by an
  explicit completion order `perm` (a permutation of the batch indices):
  `as_completed` yields futures in completion order, so the merged list
  is the concatenation of per-batch results in `perm` order;
* pandas behaviour is embedded field-wise: a missing cell is a missing
  key (NaN), `astype(str)` renders a missing cell as "nan",
  `pd.to_numeric(errors := coerce)` becomes `parseNumVal` (and a NaN
  comparison yields `false`), and a `KeyError` is an `Except.error`.
-/

namespace PMS

/-- Scalar cell values of a record (after `make_serializable` every value
is a JSON scalar: string, number, boolean-free here, or null/NaN). -/
inductive Val where
  | str (s : String)
  | num (q : ℚ)
  | null
deriving DecidableEq, Repr

/-- One line-item row: an ordered association list of field name/value,
modelling a Python dict (keys unique, insertion ordered). -/
structure ItemRecord where
  fields : List (String × Val)
deriving DecidableEq, Repr

/-- Dict lookup: value of the first binding of `k`, if any. -/
def ItemRecord.getField (r : ItemRecord) (k : String) : Option Val :=
  (r.fields.find? (fun p => p.1 == k)).map (fun p => p.2)

/-- Whether the row has a binding for `k`. -/
def ItemRecord.hasField (r : ItemRecord) (k : String) : Bool :=
  r.fields.any (fun p => p.1 == k)

/-- Python dict assignment `r[k] = v`: overwrite an existing binding in
place, or append a fresh binding at the end. -/
def ItemRecord.setField (r : ItemRecord) (k : String) (v : Val) : ItemRecord :=
  if r.hasField k then
    ⟨r.fields.map (fun p => if p.1 == k then (k, v) else p)⟩
  else
    ⟨r.fields ++ [(k, v)]⟩

/-- Rename a field (pandas `rename(columns={old: new})`, row-wise). -/
def ItemRecord.renameField (r : ItemRecord) (old new : String) : ItemRecord :=
  ⟨r.fields.map (fun p => if p.1 == old then (new, p.2) else p)⟩

/-- A column exists in the frame built from `rs` iff some row has the key. -/
def hasCol (rs : List ItemRecord) (k : String) : Bool :=
  rs.any (fun r => r.hasField k)

/-- `str.lower()` on the character list of a string. -/
def lowerStr (s : String) : String :=
  ⟨s.data.map Char.toLower⟩

/-- `isPrefL pat l`: the character list `pat` starts the list `l`. -/
def isPrefL : List Char → List Char → Bool
  | [], _ => true
  | _ :: _, [] => false
  | p :: ps, c :: cs => p == c && isPrefL ps cs

/-- `hasSubstrL pat l`: `pat` occurs contiguously inside `l`. -/
def hasSubstrL : List Char → List Char → Bool
  | pat, [] => isPrefL pat []
  | pat, c :: cs => isPrefL pat (c :: cs) || hasSubstrL pat cs

/-- Case-insensitive substring test, the semantics of pandas
`.str.contains(pat, case=False)` on one cell. -/
def containsCI (s pat : String) : Bool :=
  hasSubstrL (pat.data.map Char.toLower) (s.data.map Char.toLower)

/-- `astype(str)` on one cell; a missing cell (NaN) renders as "nan". -/
def pandasStr : Option Val → String
  | some (.str s) => s
  | some (.num q) => toString q
  | some .null => "nan"
  | none => "nan"

/-- Digits-only parse of a character list (empty or non-digit fails). -/
def digitsToNat (l : List Char) : Option Nat :=
  if l ≠ [] ∧ l.all Char.isDigit then
    some (l.foldl (fun n c => n * 10 + (c.toNat - 48)) 0)
  else none

/-- Decimal-string parse, the fragment of `pd.to_numeric` relevant to
0–100 confidence scores: optional sign, digits, optional fraction. -/
def parseRat (s : String) : Option ℚ :=
  let (neg, l) := match s.data with
    | '-' :: rest => (true, rest)
    | l => (false, l)
  let signed (q : ℚ) : ℚ := if neg then -q else q
  match l.span (fun c => c ≠ '.') with
  | (intPart, []) => (digitsToNat intPart).map (fun n => signed n)
  | (intPart, _ :: fracPart) =>
      match digitsToNat intPart, digitsToNat fracPart with
      | some i, some f => some (signed ((i : ℚ) + f / ((10 : ℚ) ^ fracPart.length)))
      | _, _ => none

/-- `pd.to_numeric(cell, errors="coerce")`: numbers pass through,
numeric strings parse, anything else (and NaN) coerces to NaN (`none`). -/
def parseNumVal : Option Val → Option ℚ
  | some (.num q) => some q
  | some (.str s) => parseRat s
  | some .null => none
  | none => none

end PMS

namespace Backend

open PMS

/-- `BATCH_SIZE = 10` (rows per AI batch, PMS mode). -/
def BATCH_SIZE : Nat := 10

/-- `RETRY_ATTEMPTS = 3` (API retry count). -/
def RETRY_ATTEMPTS : Nat := 3

/-- `MAX_WORKERS = 5` (parallel threads). -/
def MAX_WORKERS : Nat := 5

/-- The configuration dict handed to the engine by `main()` /
`app.py`; it only feeds the prompt text, never the control flow. -/
structure Config where
  country : String
  translate_enabled : Bool
  verify_prices : Bool
deriving DecidableEq, Repr

/-- Outcome of one attempt of the external oracle call in
`process_pms_batch_chunk`: non-200 status, a transport/`requests`
exception, a 200 body that fails JSON-array decoding (which raises and
is caught, counting as a failed attempt), or a parsed JSON array of
record objects. -/
inductive OracleResponse where
  | httpError
  | transportError
  | malformed
  | ok (records : List ItemRecord)
deriving DecidableEq, Repr

/-- Whether the attempt reached the `return` inside the 200 branch. -/
def OracleResponse.isOk : OracleResponse → Bool
  | .ok _ => true
  | _ => false

/-- The padding row appended on a count mismatch (backend.py:768-771). -/
def mismatchPadRecord : ItemRecord :=
  ⟨[("Supplier Item Name", .str "ERROR"),
    ("Remarks", .str "API Response Count Mismatch - Failed to Process")]⟩

/-- The per-row fallback built after the retry loop (backend.py:781-786):
`item.copy()` then `fallback_item["Remarks"] = "CRITICAL: API Processing Failed"`. -/
def fallbackRecord (item : ItemRecord) : ItemRecord :=
  item.setField "Remarks" (.str "CRITICAL: API Processing Failed")

/-- `process_pms_batch_chunk` (backend.py:738-786). The retry loop is
driven by `responses`, one `OracleResponse` per attempt (the real loop
makes `RETRY_ATTEMPTS = 3` attempts). On the first `ok` response the
parsed array is returned, padded when it is shorter than the batch: the
source pads with `for _ in range(len(items_batch) - len(result_json))`,
so a longer array is returned unchanged — `Nat` subtraction matches
Python's empty `range` of a negative number. When every attempt fails,
one fallback record per input item is returned. -/
def process_pms_batch_chunk (items_batch : List ItemRecord) (_config : Config) :
    List OracleResponse → List ItemRecord
  | [] => items_batch.map fallbackRecord
  | .ok result_json :: _ =>
      result_json ++
        List.replicate (items_batch.length - result_json.length) mismatchPadRecord
  | _ :: rest => process_pms_batch_chunk items_batch _config rest

/-- Fuel-driven worker for the batch partition
`[all_records[i:i+B] for i in range(0, len(all_records), B)]`. -/
def chunkGo : Nat → Nat → List ItemRecord → List (List ItemRecord)
  | 0, _, _ => []
  | _, _, [] => []
  | fuel + 1, B, a :: l => ((a :: l).take B) :: chunkGo fuel B ((a :: l).drop B)

/-- The batch partitioner of backend.py:816. For a positive `B` the fuel
`l.length` is never exhausted, so this is the plain comprehension
semantics (Python raises on step 0, which no caller does: `B` is
`BATCH_SIZE = 10`). -/
def chunkList (B : Nat) (l : List ItemRecord) : List (List ItemRecord) :=
  chunkGo l.length B l

/-- Column normalization of backend.py:797-812: when the frame has no
"Supplier Item Name" column, the first present candidate column is
renamed to it; likewise for "Price Per Buying Unit". -/
def normalizeRecords (rs : List ItemRecord) : List ItemRecord :=
  let nameCands := ["Description", "Item", "Product", "Product Name", "Item Name", "Material"]
  let rs1 :=
    if hasCol rs "Supplier Item Name" then rs
    else match nameCands.find? (fun c => hasCol rs c) with
      | some c => rs.map (fun r => r.renameField c "Supplier Item Name")
      | none => rs
  let priceCands := ["Price", "Unit Price", "Cost", "Amount"]
  if hasCol rs1 "Price Per Buying Unit" then rs1
  else match priceCands.find? (fun c => hasCol rs1 c) with
    | some c => rs1.map (fun r => r.renameField c "Price Per Buying Unit")
    | none => rs1

/-- The parallel dispatch and merge of backend.py:820-831: one
`process_pms_batch_chunk` task per batch; `as_completed` yields the
futures in completion order `perm` (a permutation of the batch
indices), and `processed_results.extend` concatenates in that order. -/
def dispatch (batches : List (List ItemRecord)) (config : Config)
    (responses : List (List OracleResponse)) (perm : List Nat) : List ItemRecord :=
  (perm.map (fun b =>
    process_pms_batch_chunk (batches.getD b []) config (responses.getD b []))).flatten

/-- Fuel-driven longest-common-subsequence length of two character
lists; any fuel at least the sum of the lengths is exact. -/
def lcsGo : Nat → List Char → List Char → Nat
  | 0, _, _ => 0
  | _ + 1, [], _ => 0
  | _ + 1, _ :: _, [] => 0
  | fuel + 1, a :: as, b :: bs =>
      if a == b then lcsGo fuel as bs + 1
      else max (lcsGo fuel (a :: as) bs) (lcsGo fuel as (b :: bs))

/-- LCS length of two strings. -/
def lcsLen (a b : String) : Nat :=
  lcsGo (a.data.length + b.data.length) a.data b.data

/-- `rapidfuzz.fuzz.ratio(a, b)`: the normalized indel similarity as a
percentage, `100 * (|a| + |b| - dist) / (|a| + |b|)` where `dist` is the
insert/delete edit distance `|a| + |b| - 2 * lcs`; two empty strings
score 100. -/
def similarityScore (a b : String) : ℚ :=
  let n := a.data.length + b.data.length
  if n = 0 then 100 else (200 * (lcsLen a b : ℚ)) / (n : ℚ)

/-- One emitted duplicate row (backend.py:847-853); field names follow
the dict keys Original Row A / Item A / Original Row B / Item B /
Similarity Score. -/
structure DupPair where
  rowA : Nat
  itemA : String
  rowB : Nat
  itemB : String
  score : ℚ
deriving DecidableEq, Repr

/-- The "Base Item / Ingredient Name" column as `astype(str).tolist()`. -/
def baseNames (pms : List ItemRecord) : List String :=
  pms.map (fun r => pandasStr (r.getField "Base Item / Ingredient Name"))

/-- Inner loop of backend.py:844-853: `j` over `range(i+1, n)`, with
`ratio = fuzz.ratio(base_names[i].lower(), base_names[j].lower())`,
appending a pair dict when `ratio > 90`. -/
def scanInner (names : List String) (i : Nat) : List DupPair :=
  (List.range' (i + 1) (names.length - (i + 1))).filterMap (fun j =>
    let ratio := similarityScore (lowerStr (names.getD i "")) (lowerStr (names.getD j ""))
    if 90 < ratio then
      some ⟨i + 2, names.getD i "", j + 2, names.getD j "", ratio⟩
    else none)

/-- Outer loop of backend.py:843: `i` over `range(n)`; the `duplicates`
accumulator is the concatenation over `i` of the inner-loop emissions. -/
def scanPairs (names : List String) : List DupPair :=
  (List.range names.length).flatMap (scanInner names)

/-- Duplicate detection of backend.py:839-854: runs only when the
"Base Item / Ingredient Name" column exists and the row count is
strictly below 3000; otherwise the `duplicates` list stays empty. -/
def findDuplicates (pms : List ItemRecord) : List DupPair :=
  if hasCol pms "Base Item / Ingredient Name" then
    let names := baseNames pms
    if names.length < 3000 then scanPairs names else []
  else []

/-- One review-queue row: the inserted "Row Number" column plus the
flagged record (backend.py:869-871). -/
structure ReviewEntry where
  rowNumber : Nat
  item : ItemRecord
deriving DecidableEq, Repr

/-- The three token tests of backend.py:860-862 on one row: `Remarks`
rendered by `astype(str)`, searched case-insensitively for CRITICAL,
ERROR, WARNING. -/
def remarksTokenFlag (r : ItemRecord) : Bool :=
  let remarks := pandasStr (r.getField "Remarks")
  containsCI remarks "CRITICAL" || containsCI remarks "ERROR" ||
    containsCI remarks "WARNING"

/-- The review mask of backend.py:860-865 for one row of the frame
`pms`: the three token tests OR-ed with the low-confidence test
`pd.to_numeric(pms_df.get("Match %", 100), errors="coerce") < 80` —
when the "Match %" column is absent `get` yields the scalar 100 and the
criterion is false for every row; when present, an unparseable or
missing cell coerces to NaN and `NaN < 80` is false. -/
def reviewMask (pms : List ItemRecord) (r : ItemRecord) : Bool :=
  remarksTokenFlag r ||
    (hasCol pms "Match %" &&
      match parseNumVal (r.getField "Match %") with
      | some q => decide (q < 80)
      | none => false)

/-- Review-queue generation (backend.py:867-871): filter the frame with
`reviewMask` (keeping each row's original positional index) and insert
"Row Number" = index + 2. -/
def reviewQueue (pms : List ItemRecord) : List ReviewEntry :=
  ((pms.enum.filter (fun p => reviewMask pms p.2)).map
    (fun p => ⟨p.1 + 2, p.2⟩))

/-- Steps 1-3 of `run_pms_conversion_engine` (backend.py:797-834):
column normalization, partition into `BATCH_SIZE` batches, and the
parallel dispatch merged in completion order `perm` — the rows of
`pms_df`. -/
def mergedStandardized (df : List ItemRecord) (config : Config)
    (responses : List (List OracleResponse)) (perm : List Nat) :
    List ItemRecord :=
  dispatch (chunkList BATCH_SIZE (normalizeRecords df)) config responses perm

/-- `run_pms_conversion_engine` (backend.py:788-873): the merged frame,
duplicate detection on it, then the review queue. Accessing
`pms_df["Remarks"]` on a frame without that column (in particular the
empty frame of an empty merge) raises a `KeyError`, embedded as
`Except.error`. -/
def run_pms_conversion_engine (df : List ItemRecord) (config : Config)
    (responses : List (List OracleResponse)) (perm : List Nat) :
    Except String (List ItemRecord × List ReviewEntry × List DupPair) :=
  if hasCol (mergedStandardized df config responses perm) "Remarks" then
    .ok (mergedStandardized df config responses perm,
      reviewQueue (mergedStandardized df config responses perm),
      findDuplicates (mergedStandardized df config responses perm))
  else
    .error "KeyError: Remarks"

end Backend

namespace Backend

open PMS

/-! ### Partitioner lemmas -/

theorem chunkGo_nil (fuel B : Nat) : chunkGo fuel B [] = [] := by
  cases fuel <;> rfl

theorem chunkGo_flatten {B : Nat} (hB : 1 ≤ B) :
    ∀ (fuel : Nat) (l : List ItemRecord), l.length ≤ fuel →
      (chunkGo fuel B l).flatten = l := by
  intro fuel
  induction fuel with
  | zero =>
      intro l hl
      have : l = [] := List.length_eq_zero.mp (Nat.le_zero.mp hl)
      subst this; rfl
  | succ fuel ih =>
      intro l hl
      cases l with
      | nil => rfl
      | cons a l =>
          have hdrop : ((a :: l).drop B).length ≤ fuel := by
            simp only [List.length_drop, List.length_cons]
            simp only [List.length_cons] at hl
            omega
          simp only [chunkGo, List.flatten_cons, ih _ hdrop, List.take_append_drop]

theorem chunkGo_count {B : Nat} (hB : 1 ≤ B) :
    ∀ (fuel : Nat) (l : List ItemRecord), l.length ≤ fuel →
      (chunkGo fuel B l).length = (l.length + B - 1) / B := by
  intro fuel
  induction fuel with
  | zero =>
      intro l hl
      have : l = [] := List.length_eq_zero.mp (Nat.le_zero.mp hl)
      subst this
      simp [chunkGo_nil, Nat.div_eq_of_lt (by omega : B - 1 < B)]
  | succ fuel ih =>
      intro l hl
      cases l with
      | nil => simp [chunkGo_nil, Nat.div_eq_of_lt (by omega : B - 1 < B)]
      | cons a l =>
          have hdrop : ((a :: l).drop B).length ≤ fuel := by
            simp only [List.length_drop, List.length_cons]
            simp only [List.length_cons] at hl
            omega
          have hstep := ih _ hdrop
          simp only [List.length_drop, List.length_cons] at hstep
          simp only [chunkGo, List.length_cons, hstep]
          rcases le_or_lt (l.length + 1) B with hNB | hNB
          · have h0 : l.length + 1 - B + B - 1 = B - 1 := by omega
            have h2 : (l.length + 1 + B - 1) / B = 1 :=
              Nat.div_eq_of_lt_le (by omega) (by omega)
            rw [h0, h2, Nat.div_eq_of_lt (by omega : B - 1 < B)]
          · have h0 : l.length + 1 - B + B - 1 = l.length := by omega
            have h1 : l.length + 1 + B - 1 = l.length + B := by omega
            rw [h0, h1, Nat.add_div_right _ (by omega : 0 < B)]

theorem chunkGo_mem {B : Nat} (hB : 1 ≤ B) :
    ∀ (fuel : Nat) (l : List ItemRecord) (c : List ItemRecord), l.length ≤ fuel →
      c ∈ chunkGo fuel B l → c.length ≤ B ∧ c ≠ [] := by
  intro fuel
  induction fuel with
  | zero =>
      intro l c hl hc
      have : l = [] := List.length_eq_zero.mp (Nat.le_zero.mp hl)
      subst this; simp [chunkGo_nil] at hc
  | succ fuel ih =>
      intro l c hl hc
      cases l with
      | nil => simp [chunkGo_nil] at hc
      | cons a l =>
          simp only [chunkGo, List.mem_cons] at hc
          rcases hc with hc | hc
          · subst hc
            constructor
            · rw [List.length_take]; omega
            · cases B with
              | zero => omega
              | succ B => simp [List.take_succ_cons]
          · have hdrop : ((a :: l).drop B).length ≤ fuel := by
              simp only [List.length_drop, List.length_cons]
              simp only [List.length_cons] at hl
              omega
            exact ih _ _ hdrop hc

theorem chunkGo_dropLast {B : Nat} (hB : 1 ≤ B) :
    ∀ (fuel : Nat) (l : List ItemRecord), l.length ≤ fuel →
      ∀ c ∈ (chunkGo fuel B l).dropLast, c.length = B := by
  intro fuel
  induction fuel with
  | zero =>
      intro l hl c hc
      have : l = [] := List.length_eq_zero.mp (Nat.le_zero.mp hl)
      subst this; simp [chunkGo_nil] at hc
  | succ fuel ih =>
      intro l hl c hc
      cases l with
      | nil => simp [chunkGo_nil] at hc
      | cons a l =>
          simp only [chunkGo] at hc
          rcases hdn : (a :: l).drop B with _ | ⟨d, ds⟩
          · rw [hdn, chunkGo_nil] at hc
            simp at hc
          · have hlenB : B < (a :: l).length := by
              by_contra hcon
              push_neg at hcon
              rw [List.drop_eq_nil_iff.mpr hcon] at hdn
              exact List.noConfusion hdn
            have hdrop : ((a :: l).drop B).length ≤ fuel := by
              simp only [List.length_drop, List.length_cons]
              simp only [List.length_cons] at hl
              omega
            rw [hdn] at hdrop
            have hrest : chunkGo fuel B (d :: ds) ≠ [] := by
              cases fuel with
              | zero => simp at hdrop
              | succ fuel => simp [chunkGo]
            rcases hrn : chunkGo fuel B (d :: ds) with _ | ⟨r, rs⟩
            · exact absurd hrn hrest
            · rw [hdn, hrn, List.dropLast_cons₂, List.mem_cons] at hc
              rcases hc with hc | hc
              · subst hc
                rw [List.length_take]
                omega
              · rw [← hrn] at hc
                rw [← hdn] at hdrop
                exact ih _ hdrop c (by rw [hdn]; exact hc)

/-- C7. The partitioner contract: for `1 ≤ B`, the chunks of `chunkList B l`
concatenate back to `l`, there are `⌈l.length / B⌉` of them, every chunk
is nonempty of length at most `B`, and every chunk except possibly the
last has length exactly `B`. -/
theorem partition_round_trip (l : List ItemRecord) (B : Nat) (hB : 1 ≤ B) :
    (chunkList B l).flatten = l ∧
    (chunkList B l).length = (l.length + B - 1) / B ∧
    (∀ c ∈ chunkList B l, c.length ≤ B ∧ c ≠ []) ∧
    (∀ c ∈ (chunkList B l).dropLast, c.length = B) :=
  ⟨chunkGo_flatten hB l.length l le_rfl,
   chunkGo_count hB l.length l le_rfl,
   fun c hc => chunkGo_mem hB l.length l c le_rfl hc,
   fun c hc => chunkGo_dropLast hB l.length l le_rfl c hc⟩

/-! ### Dict-update lemmas -/

theorem find_replace_self (k : String) (v : Val) :
    ∀ l : List (String × Val), l.any (fun p => p.1 == k) = true →
      (l.map (fun p => if p.1 == k then (k, v) else p)).find?
        (fun p => p.1 == k) = some (k, v) := by
  intro l
  induction l with
  | nil => intro h; simp at h
  | cons x l ih =>
      intro h
      rw [List.map_cons]
      by_cases hx : (x.1 == k) = true
      · rw [if_pos hx,
          List.find?_cons_of_pos (p := fun q : String × Val => q.1 == k) _ (by simp)]
      · rw [if_neg hx, List.find?_cons_of_neg (p := fun q : String × Val => q.1 == k) _ hx]
        simp only [List.any_cons, Bool.or_eq_true] at h
        rcases h with h | h
        · exact absurd h hx
        · exact ih h

theorem find_replace_other (k k' : String) (v : Val) (hkk : ¬k' = k) :
    ∀ l : List (String × Val),
      (l.map (fun p => if p.1 == k then (k, v) else p)).find?
        (fun p => p.1 == k') = l.find? (fun p => p.1 == k') := by
  intro l
  induction l with
  | nil => rfl
  | cons x l ih =>
      rw [List.map_cons]
      by_cases hx : (x.1 == k) = true
      · have hxk : x.1 = k := by simpa using hx
        have hx' : ¬(x.1 == k') = true := by
          simp only [beq_iff_eq, hxk]
          exact fun h => hkk h.symm
        have hkv : ¬((k, v).1 == k') = true := by
          simp only [beq_iff_eq]
          exact fun h => hkk h.symm
        rw [if_pos hx, List.find?_cons_of_neg (p := fun q : String × Val => q.1 == k') _ hkv,
          List.find?_cons_of_neg (p := fun q : String × Val => q.1 == k') _ hx', ih]
      · rw [if_neg hx]
        by_cases hq : (x.1 == k') = true
        · rw [List.find?_cons_of_pos (p := fun q : String × Val => q.1 == k') _ hq,
            List.find?_cons_of_pos (p := fun q : String × Val => q.1 == k') _ hq]
        · rw [List.find?_cons_of_neg (p := fun q : String × Val => q.1 == k') _ hq,
            List.find?_cons_of_neg (p := fun q : String × Val => q.1 == k') _ hq, ih]

/-- The semantics of `r[k] = v` on a Python dict: lookups of `k` now see
`v`, lookups of any other key are unchanged. -/
theorem getField_setField (r : ItemRecord) (k k' : String) (v : Val) :
    (r.setField k v).getField k' =
      if k' = k then some v else r.getField k' := by
  rw [ItemRecord.setField, ItemRecord.hasField]
  by_cases hhas : r.fields.any (fun p => p.1 == k) = true
  · rw [if_pos hhas]
    by_cases hkk : k' = k
    · rw [if_pos hkk, ItemRecord.getField]
      show ((r.fields.map (fun p => if p.1 == k then (k, v) else p)).find?
          (fun p => p.1 == k')).map (fun p => p.2) = some v
      rw [hkk, find_replace_self k v r.fields hhas, Option.map_some']
    · rw [if_neg hkk, ItemRecord.getField, ItemRecord.getField]
      show ((r.fields.map (fun p => if p.1 == k then (k, v) else p)).find?
          (fun p => p.1 == k')).map (fun p => p.2) =
        (r.fields.find? (fun p => p.1 == k')).map (fun p => p.2)
      rw [find_replace_other k k' v hkk r.fields]
  · rw [if_neg hhas]
    have hnone : r.fields.find? (fun p => p.1 == k) = none := by
      rw [List.find?_eq_none]
      intro x hx hxk
      exact hhas (List.any_eq_true.mpr ⟨x, hx, hxk⟩)
    by_cases hkk : k' = k
    · rw [if_pos hkk, ItemRecord.getField]
      show ((r.fields ++ [(k, v)]).find? (fun p => p.1 == k')).map
          (fun p => p.2) = some v
      rw [hkk, List.find?_append, hnone,
        List.find?_cons_of_pos (p := fun q : String × Val => q.1 == k) _ (by simp),
        Option.none_or, Option.map_some']
    · rw [if_neg hkk, ItemRecord.getField, ItemRecord.getField]
      show ((r.fields ++ [(k, v)]).find? (fun p => p.1 == k')).map
          (fun p => p.2) = (r.fields.find? (fun p => p.1 == k')).map
          (fun p => p.2)
      have hkv : ¬((k, v).1 == k') = true := by
        simp only [beq_iff_eq]
        exact fun h => hkk h.symm
      rw [List.find?_append,
        List.find?_cons_of_neg (p := fun q : String × Val => q.1 == k') _ hkv]
      cases hfind : r.fields.find? (fun p => p.1 == k') with
      | none => rw [Option.none_or]; rfl
      | some q => rfl

/-! ### Oracle client (process_pms_batch_chunk) lemmas -/

/-- When every attempt fails, the client returns the per-item fallback. -/
theorem batch_chunk_exhausted (items_batch : List ItemRecord) (config : Config) :
    ∀ responses : List OracleResponse,
      (∀ resp ∈ responses, resp.isOk = false) →
      process_pms_batch_chunk items_batch config responses =
        items_batch.map fallbackRecord := by
  intro responses
  induction responses with
  | nil => intro _; rfl
  | cons resp rest ih =>
      intro h
      cases resp with
      | ok recs =>
          have := h (.ok recs) (List.mem_cons_self _ _)
          simp [OracleResponse.isOk] at this
      | httpError => exact ih fun x hx => h x (List.mem_cons_of_mem _ hx)
      | transportError => exact ih fun x hx => h x (List.mem_cons_of_mem _ hx)
      | malformed => exact ih fun x hx => h x (List.mem_cons_of_mem _ hx)

/-- C8. Exhausted retries: one fallback record per input record, in
order, each carrying every original field unchanged except `Remarks`,
which is set to the critical processing-failed marker. -/
theorem exhausted_retries_fallback (items_batch : List ItemRecord) (config : Config)
    (responses : List OracleResponse)
    (hfail : ∀ resp ∈ responses, resp.isOk = false) :
    (process_pms_batch_chunk items_batch config responses).length =
      items_batch.length ∧
    ∀ i : Nat, ∀ r : ItemRecord, items_batch[i]? = some r →
      (process_pms_batch_chunk items_batch config responses)[i]? =
        some (fallbackRecord r) ∧
      (fallbackRecord r).getField "Remarks" =
        some (.str "CRITICAL: API Processing Failed") ∧
      ∀ k : String, k ≠ "Remarks" → (fallbackRecord r).getField k = r.getField k := by
  rw [batch_chunk_exhausted items_batch config responses hfail]
  refine ⟨List.length_map _ _, fun i r hir => ⟨?_, ?_, ?_⟩⟩
  · rw [List.getElem?_map, hir, Option.map_some']
  · rw [fallbackRecord, getField_setField, if_pos rfl]
  · intro k hk
    rw [fallbackRecord, getField_setField, if_neg hk]

/-- C2 (refuted). With a 200 response whose parsed array is longer than
the batch, the padding loop `for _ in range(len(items_batch) -
len(result_json))` runs zero times and the oversized array is returned
unchanged: a 1-item batch yields 2 records, breaking the 1:1 invariant.
(The code's own comment, backend.py:764, says "Ensure output count
matches input count".) -/
theorem oracle_overcount_breaks_one_to_one :
    (process_pms_batch_chunk [⟨[("Supplier Item Name", .str "Lemon")]⟩]
        ⟨"AE", false, true⟩
        [.ok [⟨[("Supplier Item Name", .str "Lemon")]⟩,
              ⟨[("Supplier Item Name", .str "Lime")]⟩]]).length = 2 ∧
    (2 : Nat) ≠ 1 := by
  exact ⟨rfl, by decide⟩

/-! ### Duplicate detector lemmas -/

theorem mem_scanInner (names : List String) (i : Nat) (hi : i < names.length)
    (x : DupPair) :
    x ∈ scanInner names i ↔ ∃ j : Nat, i < j ∧ j < names.length ∧
      90 < similarityScore (lowerStr (names.getD i "")) (lowerStr (names.getD j "")) ∧
      x = ⟨i + 2, names.getD i "", j + 2, names.getD j "",
        similarityScore (lowerStr (names.getD i "")) (lowerStr (names.getD j ""))⟩ := by
  unfold scanInner
  rw [List.mem_filterMap]
  constructor
  · rintro ⟨j, hj, hfj⟩
    rw [List.mem_range'_1] at hj
    have hjlt : j < names.length := by omega
    by_cases hscore : 90 < similarityScore (lowerStr (names.getD i ""))
        (lowerStr (names.getD j ""))
    · refine ⟨j, by omega, hjlt, hscore, ?_⟩
      simp only [if_pos hscore] at hfj
      exact (Option.some_inj.mp hfj).symm
    · simp only [if_neg hscore] at hfj
      exact absurd hfj (by simp)
  · rintro ⟨j, hij, hjn, hscore, hx⟩
    refine ⟨j, ?_, ?_⟩
    · rw [List.mem_range'_1]; omega
    · simp only [if_pos hscore, hx]

theorem mem_scanPairs (names : List String) (p : DupPair) :
    p ∈ scanPairs names ↔ ∃ i j : Nat, i < j ∧ j < names.length ∧
      90 < similarityScore (lowerStr (names.getD i "")) (lowerStr (names.getD j "")) ∧
      p = ⟨i + 2, names.getD i "", j + 2, names.getD j "",
        similarityScore (lowerStr (names.getD i "")) (lowerStr (names.getD j ""))⟩ := by
  unfold scanPairs
  rw [List.mem_flatMap]
  constructor
  · rintro ⟨i, hi, hp⟩
    rw [List.mem_range] at hi
    obtain ⟨j, h1, h2, h3, h4⟩ := (mem_scanInner names i hi p).mp hp
    exact ⟨i, j, h1, h2, h3, h4⟩
  · rintro ⟨i, j, hij, hjn, hsc, hp⟩
    have hi : i < names.length := lt_trans hij hjn
    exact ⟨i, List.mem_range.mpr hi,
      (mem_scanInner names i hi p).mpr ⟨j, hij, hjn, hsc, hp⟩⟩

theorem scanInner_shape (names : List String) (i : Nat) :
    ∀ x ∈ scanInner names i, x.rowA = i + 2 ∧ x.rowA < x.rowB := by
  intro x hx
  unfold scanInner at hx
  rw [List.mem_filterMap] at hx
  obtain ⟨j, hj, hfj⟩ := hx
  rw [List.mem_range'_1] at hj
  by_cases hscore : 90 < similarityScore (lowerStr (names.getD i ""))
      (lowerStr (names.getD j ""))
  · simp only [if_pos hscore] at hfj
    obtain rfl := Option.some_inj.mp hfj
    exact ⟨rfl, show i + 2 < j + 2 by omega⟩
  · simp only [if_neg hscore] at hfj
    exact absurd hfj (by simp)

theorem scanInner_pairwise (names : List String) (i : Nat) :
    (scanInner names i).Pairwise
      (fun p q => p.rowA = q.rowA ∧ p.rowB < q.rowB) := by
  unfold scanInner
  rw [List.pairwise_filterMap]
  refine (List.pairwise_lt_range' (i + 1) (names.length - (i + 1))).imp ?_
  intro a b hab x hx y hy
  by_cases ha : 90 < similarityScore (lowerStr (names.getD i ""))
      (lowerStr (names.getD a ""))
  · simp only [if_pos ha, Option.mem_def, Option.some_inj] at hx
    by_cases hb : 90 < similarityScore (lowerStr (names.getD i ""))
        (lowerStr (names.getD b ""))
    · simp only [if_pos hb, Option.mem_def, Option.some_inj] at hy
      subst hx; subst hy
      exact ⟨rfl, show a + 2 < b + 2 by omega⟩
    · simp only [if_neg hb, Option.mem_def] at hy
      exact absurd hy (by simp)
  · simp only [if_neg ha, Option.mem_def] at hx
    exact absurd hx (by simp)

theorem scanPairs_pairwise (names : List String) :
    (scanPairs names).Pairwise
      (fun p q => p.rowA < q.rowA ∨ (p.rowA = q.rowA ∧ p.rowB < q.rowB)) := by
  unfold scanPairs
  rw [List.pairwise_flatMap]
  constructor
  · intro i _
    exact (scanInner_pairwise names i).imp fun h => Or.inr h
  · refine (List.pairwise_lt_range names.length).imp ?_
    intro a b hab x hx y hy
    left
    rw [(scanInner_shape names a x hx).1, (scanInner_shape names b y hy).1]
    omega

theorem findDuplicates_run (pms : List ItemRecord)
    (hcol : hasCol pms "Base Item / Ingredient Name" = true)
    (hlen : (baseNames pms).length < 3000) :
    findDuplicates pms = scanPairs (baseNames pms) := by
  unfold findDuplicates
  rw [if_pos hcol]
  show (if (baseNames pms).length < 3000 then scanPairs (baseNames pms) else []) = _
  rw [if_pos hlen]

theorem findDuplicates_skip (pms : List ItemRecord)
    (hlen : 3000 ≤ pms.length) :
    findDuplicates pms = [] := by
  unfold findDuplicates
  by_cases hcol : hasCol pms "Base Item / Ingredient Name" = true
  · rw [if_pos hcol]
    show (if (baseNames pms).length < 3000 then scanPairs (baseNames pms) else []) = _
    rw [if_neg]
    rw [baseNames, List.length_map]
    omega
  · rw [if_neg hcol]

theorem mem_findDuplicates (pms : List ItemRecord) (p : DupPair)
    (hp : p ∈ findDuplicates pms) :
    ∃ i j : Nat, i < j ∧ j < (baseNames pms).length ∧
      90 < similarityScore (lowerStr ((baseNames pms).getD i ""))
        (lowerStr ((baseNames pms).getD j "")) ∧
      p = ⟨i + 2, (baseNames pms).getD i "", j + 2, (baseNames pms).getD j "",
        similarityScore (lowerStr ((baseNames pms).getD i ""))
          (lowerStr ((baseNames pms).getD j ""))⟩ := by
  unfold findDuplicates at hp
  by_cases hcol : hasCol pms "Base Item / Ingredient Name" = true
  · rw [if_pos hcol] at hp
    change p ∈ (if (baseNames pms).length < 3000 then
      scanPairs (baseNames pms) else []) at hp
    by_cases hlen : (baseNames pms).length < 3000
    · rw [if_pos hlen] at hp
      exact (mem_scanPairs _ _).mp hp
    · rw [if_neg hlen] at hp
      exact absurd hp (List.not_mem_nil p)
  · rw [if_neg hcol] at hp
    exact absurd hp (List.not_mem_nil p)

/-- C6. Every emitted duplicate pair has its stored score equal to the
similarity of the two lower-cased canonical names and above 90, row
references `i + 2 < j + 2` for distinct indices `i < j`; the output is
strictly ordered lexicographically (i ascending then j ascending), so no
unordered pair of rows is ever reported twice. -/
theorem duplicate_pair_invariants (pms : List ItemRecord) :
    (∀ p ∈ findDuplicates pms, ∃ i j : Nat, i < j ∧ j < (baseNames pms).length ∧
      p.rowA = i + 2 ∧ p.rowB = j + 2 ∧
      p.score = similarityScore (lowerStr ((baseNames pms).getD i ""))
        (lowerStr ((baseNames pms).getD j "")) ∧
      90 < p.score) ∧
    (findDuplicates pms).Pairwise
      (fun p q => p.rowA < q.rowA ∨ (p.rowA = q.rowA ∧ p.rowB < q.rowB)) ∧
    (findDuplicates pms).Pairwise
      (fun p q => p.rowA ≠ q.rowA ∨ p.rowB ≠ q.rowB) := by
  have hpair : (findDuplicates pms).Pairwise
      (fun p q => p.rowA < q.rowA ∨ (p.rowA = q.rowA ∧ p.rowB < q.rowB)) := by
    unfold findDuplicates
    by_cases hcol : hasCol pms "Base Item / Ingredient Name" = true
    · rw [if_pos hcol]
      show (if (baseNames pms).length < 3000 then scanPairs (baseNames pms)
        else []).Pairwise _
      by_cases hlen : (baseNames pms).length < 3000
      · rw [if_pos hlen]; exact scanPairs_pairwise (baseNames pms)
      · rw [if_neg hlen]; exact List.Pairwise.nil
    · rw [if_neg hcol]; exact List.Pairwise.nil
  refine ⟨?_, hpair, ?_⟩
  · intro p hp
    obtain ⟨i, j, hij, hjn, hsc, hpe⟩ := mem_findDuplicates pms p hp
    subst hpe
    exact ⟨i, j, hij, hjn, rfl, rfl, rfl, hsc⟩
  · refine hpair.imp ?_
    intro p q h
    rcases h with h | ⟨_, h⟩
    · exact Or.inl (Nat.ne_of_lt h)
    · exact Or.inr (Nat.ne_of_lt h)

/-- A sample standardized row whose canonical name is "ab". -/
def dupSampleRow : ItemRecord :=
  ⟨[("Base Item / Ingredient Name", .str "ab")]⟩

/-- A two-row standardized set with identical canonical names. -/
def dupSample : List ItemRecord := [dupSampleRow, dupSampleRow]

theorem duplicate_pair_invariants_witness :
    (⟨2, "ab", 3, "ab", similarityScore (lowerStr "ab") (lowerStr "ab")⟩ : DupPair) ∈
      findDuplicates dupSample ∧
    (∃ i j : Nat, i < j ∧ j < (baseNames dupSample).length ∧
      (⟨2, "ab", 3, "ab", similarityScore (lowerStr "ab") (lowerStr "ab")⟩ : DupPair).rowA
        = i + 2 ∧
      (⟨2, "ab", 3, "ab", similarityScore (lowerStr "ab") (lowerStr "ab")⟩ : DupPair).rowB
        = j + 2 ∧
      (⟨2, "ab", 3, "ab", similarityScore (lowerStr "ab") (lowerStr "ab")⟩ : DupPair).score
        = similarityScore (lowerStr ((baseNames dupSample).getD i ""))
            (lowerStr ((baseNames dupSample).getD j "")) ∧
      90 < (⟨2, "ab", 3, "ab", similarityScore (lowerStr "ab") (lowerStr "ab")⟩ : DupPair).score) := by
  have hnames : baseNames dupSample = ["ab", "ab"] := by decide
  have hsc : 90 < similarityScore (lowerStr ((baseNames dupSample).getD 0 ""))
      (lowerStr ((baseNames dupSample).getD 1 "")) := by
    rw [hnames]
    norm_num [similarityScore, lowerStr, lcsLen, lcsGo]
  have hmem : (⟨2, "ab", 3, "ab",
      similarityScore (lowerStr "ab") (lowerStr "ab")⟩ : DupPair) ∈
      findDuplicates dupSample := by
    rw [findDuplicates_run dupSample (by decide) (by rw [hnames]; norm_num)]
    refine (mem_scanPairs _ _).mpr ⟨0, 1, by norm_num, by rw [hnames]; norm_num, hsc, ?_⟩
    rw [hnames]
    rfl
  exact ⟨hmem, (duplicate_pair_invariants dupSample).1 _ hmem⟩

/-- C5 (refuted as stated). A standardized set whose row count is
exactly 3000 and whose canonical names are all identical produces an
empty duplicates list: the source's guard is `len(base_names) < 3000`,
so the pairwise pass is skipped already at the ceiling, not only above
it — and the skipped outcome is the same empty list a clean run yields. -/
theorem dup_ceiling_at_3000_counterexample :
    (List.replicate 3000 dupSampleRow).length = 3000 ∧
    90 < similarityScore
      (lowerStr ((baseNames (List.replicate 3000 dupSampleRow)).getD 0 ""))
      (lowerStr ((baseNames (List.replicate 3000 dupSampleRow)).getD 1 "")) ∧
    findDuplicates (List.replicate 3000 dupSampleRow) = [] := by
  have hnames : baseNames (List.replicate 3000 dupSampleRow) =
      List.replicate 3000 "ab" := by
    rw [baseNames, List.map_replicate]
    congr 1
  refine ⟨List.length_replicate 3000 dupSampleRow, ?_, ?_⟩
  · rw [hnames]
    have h0 : (List.replicate 3000 "ab").getD 0 "" = "ab" := by
      rw [List.getD_eq_getElem?_getD, List.getElem?_replicate, if_pos (by norm_num)]
      rfl
    have h1 : (List.replicate 3000 "ab").getD 1 "" = "ab" := by
      rw [List.getD_eq_getElem?_getD, List.getElem?_replicate, if_pos (by norm_num)]
      rfl
    rw [h0, h1]
    norm_num [similarityScore, lowerStr, lcsLen, lcsGo]
  · exact findDuplicates_skip _ (by rw [List.length_replicate])

/-- C5 (amended). The pairwise pass runs only when the row count is
strictly below 3000 (there it emits every pair whose lower-cased
canonical-name similarity exceeds 90); at 3000 rows or more it is
skipped and the empty list is returned, indistinguishable from a run
that found no duplicates. -/
theorem dup_ceiling_policy (pms : List ItemRecord) :
    (3000 ≤ pms.length → findDuplicates pms = []) ∧
    (hasCol pms "Base Item / Ingredient Name" = true → pms.length < 3000 →
      ∀ i j : Nat, i < j → j < pms.length →
        90 < similarityScore (lowerStr ((baseNames pms).getD i ""))
          (lowerStr ((baseNames pms).getD j "")) →
        (⟨i + 2, (baseNames pms).getD i "", j + 2, (baseNames pms).getD j "",
          similarityScore (lowerStr ((baseNames pms).getD i ""))
            (lowerStr ((baseNames pms).getD j ""))⟩ : DupPair) ∈
          findDuplicates pms) := by
  have hbl : (baseNames pms).length = pms.length := List.length_map _ _
  constructor
  · exact findDuplicates_skip pms
  · intro hcol hlen i j hij hj hsc
    rw [findDuplicates_run pms hcol (by omega)]
    exact (mem_scanPairs _ _).mpr ⟨i, j, hij, by omega, hsc, rfl⟩

theorem dup_ceiling_policy_witness :
    (⟨2, (baseNames dupSample).getD 0 "", 3, (baseNames dupSample).getD 1 "",
      similarityScore (lowerStr ((baseNames dupSample).getD 0 ""))
        (lowerStr ((baseNames dupSample).getD 1 ""))⟩ : DupPair) ∈
      findDuplicates dupSample ∧
    findDuplicates (List.replicate 3000 dupSampleRow) = [] := by
  constructor
  · refine (dup_ceiling_policy dupSample).2 (by decide) (by decide) 0 1
      (by norm_num) (by decide) ?_
    have hnames : baseNames dupSample = ["ab", "ab"] := by decide
    rw [hnames]
    norm_num [similarityScore, lowerStr, lcsLen, lcsGo]
  · exact (dup_ceiling_policy _).1 (by rw [List.length_replicate])

/-! ### Review classifier lemmas -/

theorem getField_eq_none_of_hasField_false (r : ItemRecord) (k : String)
    (h : r.hasField k = false) : r.getField k = none := by
  rw [ItemRecord.getField]
  have : r.fields.find? (fun p => p.1 == k) = none := by
    rw [List.find?_eq_none]
    intro x hx hxk
    rw [ItemRecord.hasField] at h
    rw [List.any_eq_true.mpr ⟨x, hx, hxk⟩] at h
    exact Bool.noConfusion h
  rw [this, Option.map_none']

theorem hasField_false_of_hasCol_false {rs : List ItemRecord} {k : String}
    (h : hasCol rs k = false) : ∀ r ∈ rs, r.hasField k = false := by
  intro r hr
  by_contra hcon
  rw [Bool.not_eq_false] at hcon
  rw [hasCol, List.any_eq_true.mpr ⟨r, hr, hcon⟩] at h
  exact Bool.noConfusion h

/-- Modelled from the spec (§4.4): a row qualifies iff its remarks
contain CRITICAL or ERROR or WARNING case-insensitively, or its
confidence score, parsed as a number with missing/unparseable treated
as 100, is strictly below 80. -/
def specReviewFlag (r : ItemRecord) : Bool :=
  remarksTokenFlag r ||
    decide ((parseNumVal (r.getField "Match %")).getD 100 < 80)

/-- C4. The review classifier flags exactly the rows of the spec
predicate: the review queue equals the standardized set filtered by
`specReviewFlag`, each kept row annotated with its index plus 2. -/
theorem review_classifier_matches_spec (pms : List ItemRecord) :
    reviewQueue pms = ((pms.enum.filter (fun p => specReviewFlag p.2)).map
      (fun p => ⟨p.1 + 2, p.2⟩) : List ReviewEntry) := by
  unfold reviewQueue
  congr 1
  apply List.filter_congr
  intro x hx
  have hxm : x.2 ∈ pms := by
    have hg := List.mem_enum_iff_getElem?.mp hx
    obtain ⟨hlt, hge⟩ := List.getElem?_eq_some_iff.mp hg
    exact hge ▸ List.getElem_mem hlt
  rw [reviewMask, specReviewFlag]
  by_cases hcol : hasCol pms "Match %" = true
  · rw [hcol]
    cases hpv : parseNumVal (x.2.getField "Match %") with
    | some q => simp [hpv]
    | none =>
        simp only [hpv, Bool.true_and, Option.getD_none]
        rw [decide_eq_false (by norm_num : ¬(100 : ℚ) < 80)]
  · have hcf : hasCol pms "Match %" = false := by
      rw [← Bool.not_eq_true]; exact hcol
    have hgf : x.2.getField "Match %" = none :=
      getField_eq_none_of_hasField_false x.2 "Match %"
        (hasField_false_of_hasCol_false hcf x.2 hxm)
    rw [hcf, hgf]
    simp only [parseNumVal, Bool.false_and, Bool.or_false, Option.getD_none]
    rw [decide_eq_false (by norm_num : ¬(100 : ℚ) < 80), Bool.or_false]

/-- C10. When the standardized set has no "Match %" column at all, the
low-confidence criterion contributes nothing: the review queue is
exactly the rows flagged by the remarks-token tests. -/
theorem review_without_match_col (pms : List ItemRecord)
    (h : hasCol pms "Match %" = false) :
    reviewQueue pms = ((pms.enum.filter (fun p => remarksTokenFlag p.2)).map
      (fun p => ⟨p.1 + 2, p.2⟩) : List ReviewEntry) := by
  unfold reviewQueue
  congr 1
  apply List.filter_congr
  intro x _
  rw [reviewMask, h]
  simp

theorem review_without_match_col_witness :
    reviewQueue [(⟨[("Remarks", .str "WARNING: Check Unit")]⟩ : ItemRecord),
        ⟨[("Remarks", .str "fine")]⟩] =
      (([(⟨[("Remarks", .str "WARNING: Check Unit")]⟩ : ItemRecord),
        ⟨[("Remarks", .str "fine")]⟩].enum.filter
          (fun p => remarksTokenFlag p.2)).map
        (fun p => ⟨p.1 + 2, p.2⟩) : List ReviewEntry) :=
  review_without_match_col
    [⟨[("Remarks", .str "WARNING: Check Unit")]⟩, ⟨[("Remarks", .str "fine")]⟩]
    (by decide)

/-! ### Engine-level theorems -/

theorem engine_ok_parts {df : List ItemRecord} {config : Config}
    {responses : List (List OracleResponse)} {perm : List Nat}
    {pms : List ItemRecord} {review : List ReviewEntry} {dups : List DupPair}
    (h : run_pms_conversion_engine df config responses perm =
      .ok (pms, review, dups)) :
    review = reviewQueue pms ∧ dups = findDuplicates pms := by
  unfold run_pms_conversion_engine at h
  by_cases hcol : hasCol (mergedStandardized df config responses perm)
      "Remarks" = true
  · rw [if_pos hcol] at h
    obtain ⟨h1, h2, h3⟩ : mergedStandardized df config responses perm = pms ∧
        reviewQueue (mergedStandardized df config responses perm) = review ∧
        findDuplicates (mergedStandardized df config responses perm) = dups := by
      injection h with h
      injection h with h1 h
      injection h with h2 h3
      exact ⟨h1, h2, h3⟩
    rw [← h1, h2, h3]
    exact ⟨rfl, rfl⟩
  · rw [if_neg hcol] at h
    exact Except.noConfusion h

/-- C3 (refuted). On an empty record set the merged frame is empty, so
it has no "Remarks" column and building the review mask raises
`KeyError('Remarks')`: the engine does not return the triple. -/
theorem engine_empty_input_keyerror :
    run_pms_conversion_engine [] ⟨"AE", false, true⟩ [] [] =
      .error "KeyError: Remarks" := rfl

/-- C9. In any run that returns a triple, every review entry's reported
row number is its record's index in the standardized set plus 2, and
every duplicate pair's two row numbers follow the same +2 convention
for a pair of indices i < j of the standardized set. -/
theorem row_number_offset (df : List ItemRecord) (config : Config)
    (responses : List (List OracleResponse)) (perm : List Nat)
    (pms : List ItemRecord) (review : List ReviewEntry) (dups : List DupPair)
    (h : run_pms_conversion_engine df config responses perm =
      .ok (pms, review, dups)) :
    (∀ e ∈ review, ∃ i : Nat, pms[i]? = some e.item ∧ e.rowNumber = i + 2) ∧
    (∀ p ∈ dups, ∃ i j : Nat, i < j ∧ j < pms.length ∧
      p.rowA = i + 2 ∧ p.rowB = j + 2) := by
  obtain ⟨hrev, hdup⟩ := engine_ok_parts h
  constructor
  · intro e he
    rw [hrev] at he
    unfold reviewQueue at he
    rw [List.mem_map] at he
    obtain ⟨x, hxf, hxe⟩ := he
    rw [List.mem_filter] at hxf
    have hx := List.mem_enum_iff_getElem?.mp hxf.1
    subst hxe
    exact ⟨x.1, hx, rfl⟩
  · intro p hp
    rw [hdup] at hp
    obtain ⟨i, j, hij, hjl, _, hpe⟩ := mem_findDuplicates pms p hp
    rw [baseNames, List.length_map] at hjl
    subst hpe
    exact ⟨i, j, hij, hjl, rfl, rfl⟩

/-- A clean sample row for engine-level runs. -/
def okRow : ItemRecord :=
  ⟨[("Supplier Item Name", .str "x"), ("Remarks", .str "fine")]⟩

/-- A sample row carrying an ERROR remark, placed at index 5. -/
def badRow : ItemRecord :=
  ⟨[("Supplier Item Name", .str "y"), ("Remarks", .str "ERROR: bad unit")]⟩

/-- Six input rows; index 5 is the flagged one. -/
def offsetSample : List ItemRecord := List.replicate 5 okRow ++ [badRow]

theorem row_number_offset_witness :
    ∃ i : Nat, offsetSample[i]? =
      some (⟨7, badRow⟩ : ReviewEntry).item ∧
      (⟨7, badRow⟩ : ReviewEntry).rowNumber = i + 2 :=
  (row_number_offset offsetSample ⟨"AE", false, true⟩ [[.ok offsetSample]] [0]
      offsetSample [⟨7, badRow⟩] [] rfl).1
    ⟨7, badRow⟩ (List.mem_singleton.mpr rfl)

/-- One of eleven identical input rows (two batches: 10 + 1). -/
def c1In : ItemRecord := ⟨[("Supplier Item Name", .str "x")]⟩

/-- The record the oracle returns for every row of batch 0. -/
def c1A : ItemRecord :=
  ⟨[("Supplier Item Name", .str "a"), ("Remarks", .str "")]⟩

/-- The record the oracle returns for the single row of batch 1. -/
def c1B : ItemRecord :=
  ⟨[("Supplier Item Name", .str "b"), ("Remarks", .str "")]⟩

/-- C1 (refuted). The merge loop iterates `as_completed(futures)` and
extends `processed_results` in completion order: with batch 1 completing
before batch 0, the merged standardized set starts with batch 1's
record instead of batch 0's ten records, which differs from the
submission-order concatenation — the global index invariant is not
preserved under completion reordering. -/
theorem dispatcher_completion_order_counterexample :
    List.Perm [1, 0] (List.range 2) ∧
    run_pms_conversion_engine (List.replicate 11 c1In) ⟨"AE", false, true⟩
      [[.ok (List.replicate 10 c1A)], [.ok [c1B]]] [1, 0] =
      .ok (c1B :: List.replicate 10 c1A, [], []) ∧
    run_pms_conversion_engine (List.replicate 11 c1In) ⟨"AE", false, true⟩
      [[.ok (List.replicate 10 c1A)], [.ok [c1B]]] [0, 1] =
      .ok (List.replicate 10 c1A ++ [c1B], [], []) ∧
    (c1B :: List.replicate 10 c1A : List ItemRecord) ≠
      List.replicate 10 c1A ++ [c1B] :=
  ⟨by decide, rfl, rfl, by decide⟩

/-! ### Witnesses on concrete data for the partitioner and the client -/

/-- Five records to partition with batch size 2. -/
def partSample : List ItemRecord := List.replicate 5 okRow

theorem partition_round_trip_witness :
    (1 : Nat) ≤ 2 ∧
    ((chunkList 2 partSample).flatten = partSample ∧
     (chunkList 2 partSample).length = (partSample.length + 2 - 1) / 2 ∧
     (∀ c ∈ chunkList 2 partSample, c.length ≤ 2 ∧ c ≠ []) ∧
     (∀ c ∈ (chunkList 2 partSample).dropLast, c.length = 2)) :=
  ⟨by decide, partition_round_trip partSample 2 (by decide)⟩

/-- A one-record batch whose row already carries a Remarks value. -/
def fbSample : List ItemRecord :=
  [⟨[("Supplier Item Name", .str "x"), ("Remarks", .str "old")]⟩]

theorem exhausted_retries_fallback_witness :
    (∀ resp ∈ ([.httpError, .transportError, .malformed] :
        List OracleResponse), resp.isOk = false) ∧
    ((process_pms_batch_chunk fbSample ⟨"AE", false, true⟩
        [.httpError, .transportError, .malformed]).length = fbSample.length ∧
      ∀ i : Nat, ∀ r : ItemRecord, fbSample[i]? = some r →
        (process_pms_batch_chunk fbSample ⟨"AE", false, true⟩
          [.httpError, .transportError, .malformed])[i]? =
            some (fallbackRecord r) ∧
        (fallbackRecord r).getField "Remarks" =
          some (.str "CRITICAL: API Processing Failed") ∧
        ∀ k : String, k ≠ "Remarks" →
          (fallbackRecord r).getField k = r.getField k) :=
  ⟨by decide, exhausted_retries_fallback fbSample ⟨"AE", false, true⟩
    [.httpError, .transportError, .malformed] (by decide)⟩

end Backend
